import Mathlib

/-!
Verification development for the application layer of the `countgd` repository
(`app.py`).  The Python functions `get_box_inputs`, `get_ind_to_filter`,
`generate_output_label`, `get_boxes_from_prediction`, `preprocess`, `predict`
and the computational core of `generate_heatmap` are shallowly embedded below.
Python strings are modelled by Lean `String`, with the string primitives the
code relies on (`str.split()`, `str.split(",")`, `str.strip()`,
`list.index(x, start)`) re-implemented structurally at the character level so
that they mirror Python's semantics and evaluate inside the kernel.
Tensors are modelled by (nested) lists; float arithmetic is idealised over `ℝ`
(for values flowing through `sigmoid` and the Gaussian kernel) and `ℚ`
(for coordinates and flags, which are only moved around and compared).
Fallible code is modelled with `Except`/`Option`.
-/

/-! ### Python string primitives -/

/-- Splits a character list at every character satisfying `p`, keeping empty
pieces, mirroring the piece structure of Python's `str.split(sep)`. -/
def splitOnP (p : Char → Bool) : List Char → List (List Char)
  | [] => [[]]
  | c :: rest =>
      let r := splitOnP p rest
      if p c then [] :: r
      else
        match r with
        | [] => [[c]]
        | w :: ws => (c :: w) :: ws

/-- Python `str.strip()` on a character list: drop whitespace from both ends. -/
def pyStripChars (cs : List Char) : List Char :=
  ((cs.dropWhile Char.isWhitespace).reverse.dropWhile Char.isWhitespace).reverse

/-- Python `str.strip()`. -/
def pyStrip (s : String) : String :=
  (pyStripChars s.toList).asString

/-- Python `str.split()` with no argument: split on whitespace runs and drop
empty pieces. -/
def pySplitWs (s : String) : List String :=
  ((splitOnP Char.isWhitespace s.toList).filter (fun cs => !cs.isEmpty)).map List.asString

/-- Python `str.split(",")`: split on commas, keeping empty pieces. -/
def pySplitComma (s : String) : List String :=
  (splitOnP (fun c => c == ',') s.toList).map List.asString

/-- Python `list.index(x, start)` on a list of strings: the first index `≥ start`
holding `x`, or `none` where Python raises `ValueError`. -/
def indexFrom (ws : List String) (k : String) (start : Nat) : Option Nat :=
  match (ws.drop start).findIdx? (fun w => w == k) with
  | some i => some (start + i)
  | none => none

/-! ### `get_box_inputs` (app.py lines 131-137) -/

/-- A user prompt: the 6-tuple `(x1, y1, flag1, x2, y2, flag2)` indexed as
`prompt[0] .. prompt[5]` in the source. -/
structure Prompt where
  x1 : ℚ
  y1 : ℚ
  flag1 : ℚ
  x2 : ℚ
  y2 : ℚ
  flag2 : ℚ

/-- An exemplar box `[x1, y1, x2, y2]`. -/
abbrev ExBox : Type := ℚ × ℚ × ℚ × ℚ

/-- `get_box_inputs(prompts)`: the loop appending
`[prompt[0], prompt[1], prompt[3], prompt[4]]` for each prompt with
`prompt[2] == 2.0 and prompt[5] == 3.0`. -/
def get_box_inputs (prompts : List Prompt) : List ExBox :=
  prompts.foldl
    (fun box_inputs p =>
      if p.flag1 = 2 ∧ p.flag2 = 3 then box_inputs ++ [(p.x1, p.y1, p.x2, p.y2)]
      else box_inputs)
    []

/-! ### `get_ind_to_filter` (app.py lines 139-164) -/

/-- The keyword spec parsing of `get_ind_to_filter`:
`keywords.split(",")` followed by `keyword.strip()` on each piece. -/
def parsedKeywords (keywords : String) : List String :=
  (pySplitComma keywords).map pyStrip

/-- The keyword-location loop of `get_ind_to_filter`.  The accumulator holds the
matched word positions most-recent first (so its head is Python's
`word_inds[-1]`); the final result is reversed back into match order.
For each keyword: if it occurs nowhere in `ws` the whole match fails
(the `raise Exception` branch); otherwise it is searched from the previous
match position (`0` for the first keyword), where `list.index(k, start)` can
also fail (`ValueError`), modelled by `none`. -/
def matchKeywords (ws : List String) : List String → List Nat → Option (List Nat)
  | [], acc => some acc.reverse
  | k :: ks, acc =>
      if k ∈ ws then
        match indexFrom ws k (acc.headD 0) with
        | some i => matchKeywords ws ks (i :: acc)
        | none => none
      else none

/-- `get_ind_to_filter(text, word_ids, keywords)`.  `word_ids` is the
tokenizer's token-to-word alignment, one entry per sub-word token (`none` for
special tokens, which Python's `word_id in word_inds` never matches).  Errors
(`raise Exception` / `ValueError`) are modelled with `Except.error`. -/
def get_ind_to_filter (text : String) (word_ids : List (Option Nat))
    (keywords : String) : Except String (List Nat) :=
  if keywords.length ≤ 0 then Except.ok (List.range word_ids.length)
  else
    match matchKeywords (pySplitWs text) (parsedKeywords keywords) [] with
    | none => Except.error "Only specify keywords in the input text!"
    | some word_inds =>
        Except.ok ((List.range word_ids.length).filter
          (fun ind =>
            match word_ids.getD ind none with
            | some wid => decide (wid ∈ word_inds)
            | none => false))

/-! ### `generate_output_label` (app.py lines 184-202) -/

/-- `generate_output_label(text, num_exemplars)`. -/
def generate_output_label (text : String) (num_exemplars : Nat) : String :=
  let out_label := "Detected instances predicted with"
  if 0 < (pyStrip text).length then
    let out_label := out_label ++ " text"
    if num_exemplars = 1 then
      out_label ++ " and " ++ toString num_exemplars ++ " visual exemplar."
    else if 1 < num_exemplars then
      out_label ++ " and " ++ toString num_exemplars ++ " visual exemplars."
    else
      out_label ++ "."
  else if 0 < num_exemplars then
    if num_exemplars = 1 then
      out_label ++ " " ++ toString num_exemplars ++ " visual exemplar."
    else
      out_label ++ " " ++ toString num_exemplars ++ " visual exemplars."
  else
    "Nothing specified to detect."

/-! ### `get_boxes_from_prediction` (app.py lines 218-228) -/

/-- The fixed confidence threshold `CONF_THRESH = 0.23` (app.py line 19). -/
noncomputable def CONF_THRESH : ℝ := 23 / 100

/-- The logistic sigmoid applied by `model_output["pred_logits"].sigmoid()`. -/
noncomputable def sigmoid (x : ℝ) : ℝ := 1 / (1 + Real.exp (-x))

/-- A predicted box (a row of `pred_boxes[0]`). -/
abbrev Box : Type := ℚ × ℚ × ℚ × ℚ

/-- The slice of the model output that `get_boxes_from_prediction` reads:
`pred_logits[0]` (one row of raw per-token logits per predicted instance),
`pred_boxes[0]` (one box per instance, same order), and
`token[0].word_ids` (the tokenizer's token-to-word alignment). -/
structure ModelOutput where
  pred_logits : List (List ℝ)
  pred_boxes : List Box
  word_ids : List (Option Nat)

/-- PyTorch `tensor.max(dim=-1)` over one row; rows handed to it in
`get_boxes_from_prediction` are always non-empty (PyTorch raises on an empty
reduction dimension, which is handled separately), so the `[]` case is an
arbitrary default that is never reached there. -/
noncomputable def pyMax : List ℝ → ℝ
  | [] => 0
  | x :: xs => xs.foldl max x

/-- `get_boxes_from_prediction(model_output, text, keywords)`.
The sliced post-sigmoid logits of an instance with raw row `row` are
`ind_to_filter.map (fun i => sigmoid (row.getD i 0))` (in the code every
selected index is in range, so the `getD` default is never used).
With a non-whitespace keyword spec the instance mask is
`(logits > CONF_THRESH).sum(dim=-1) == len(ind_to_filter)`; otherwise it is
`logits.max(dim=-1).values > CONF_THRESH`, where PyTorch raises if the reduced
dimension `len(ind_to_filter)` is zero (modelled by `Except.error`).
`boxes[box_mask]` / `logits[box_mask]` keep the rows whose mask entry is true. -/
noncomputable def get_boxes_from_prediction (mo : ModelOutput) (text : String)
    (keywords : String := "") : Except String (List Box × List (List ℝ)) :=
  match get_ind_to_filter text mo.word_ids keywords with
  | Except.error e => Except.error e
  | Except.ok ind_to_filter =>
      let logits := mo.pred_logits.map
        (fun row => ind_to_filter.map (fun i => sigmoid (row.getD i 0)))
      let maskE : Except String (List Bool) :=
        if 0 < (pyStrip keywords).length then
          Except.ok (logits.map
            (fun row => decide (row.countP (fun x => decide (CONF_THRESH < x))
              = ind_to_filter.length)))
        else if ind_to_filter.isEmpty then
          Except.error "max(): Expected reduction dim to have non-zero size."
        else
          Except.ok (logits.map (fun row => decide (CONF_THRESH < pyMax row)))
      match maskE with
      | Except.error e => Except.error e
      | Except.ok box_mask =>
          Except.ok
            (((mo.pred_boxes.zip box_mask).filterMap
                (fun bm => if bm.2 then some bm.1 else none)),
             ((logits.zip box_mask).filterMap
                (fun lm => if lm.2 then some lm.1 else none)))

/-! ### `preprocess` and `predict` (app.py lines 204-248)

The image type, the transform pipeline and the neural network are external
dependencies; they enter the embedding as opaque parameters.  A transform takes
an image and an optional exemplar-box target and returns the transformed image
together with the transformed exemplar boxes (`transform(image, None)` has its
target ignored, matching `input_image, _ = transform(image, None)`).  A model
takes the main image, the exemplar image, the exemplar boxes and the caption
and returns a `ModelOutput`; batching to batch-size 1, device placement and
`torch.no_grad()` have no observable effect in this purely functional model. -/

/-- The `prompts` dictionary `{"image": ..., "points": ...}`. -/
structure PromptsDict (Img : Type) where
  image : Img
  points : List Prompt

/-- `preprocess(transform, image, input_prompts)`: returns
`(input_image, input_image_exemplar, exemplar)`. -/
def preprocess {Img : Type}
    (transform : Img → Option (List ExBox) → Img × List ExBox)
    (image : Img) (input_prompts : Option (PromptsDict Img)) :
    Img × Img × List ExBox :=
  let prompts : PromptsDict Img :=
    match input_prompts with
    | none => ⟨image, []⟩
    | some p => p
  let input_image := (transform image none).1
  let exemplar := get_box_inputs prompts.points
  let ie := transform prompts.image (some exemplar)
  (input_image, ie.1, ie.2)

/-- `predict(model, transform, image, text, prompts, device)`: preprocesses,
runs the model on the caption `text + " ."`, and hands the output to
`get_boxes_from_prediction` with the hardcoded local `keywords = ""`
(`predict` has no keywords parameter of its own). -/
noncomputable def predict {Img : Type}
    (model : Img → Img → List ExBox → String → ModelOutput)
    (transform : Img → Option (List ExBox) → Img × List ExBox)
    (image : Img) (text : String) (prompts : Option (PromptsDict Img)) :
    Except String (List Box × List (List ℝ)) :=
  let pre := preprocess transform image prompts
  let model_output := model pre.1 pre.2.1 pre.2.2 (text ++ " .")
  get_boxes_from_prediction model_output text ""

/-! ### The computational core of `generate_heatmap` (app.py lines 166-173)

`generate_heatmap` builds a detection grid, smooths it with
`scipy.ndimage.gaussian_filter`, and then only renders it (matplotlib overlay,
PNG encoding), so the density map below is its verifiable core.  The Gaussian
filter is an external scipy primitive; it is modelled from its documented
semantics: a separable discrete Gaussian kernel with weights
`exp(-d^2 / (2 sigma^2))` normalised to sum 1, truncated at radius
`int(4.0 * sigma + 0.5)` (= `4 * sigma` for a natural-number sigma), applied by
correlation.  The grid is extended by zero outside its bounds; this agrees
with scipy's `reflect` boundary mode whenever, as in the concrete scenarios
proved below, every nonzero grid cell lies further than the kernel radius from
the border (the reflected cells are then all zero as well). -/

/-- The sigma passed by the code: `sigma=(w // 200, w // 200)` — Python floor
division of the image width by 200 (`Nat.div` here). -/
def heatmapSigma (w : ℕ) : ℕ := w / 200

/-- numpy `astype(int)`: truncation toward zero. -/
def pyTruncInt (q : ℚ) : ℤ := if 0 ≤ q then ⌊q⌋ else ⌈q⌉

/-- The impulse grid: `det_map = np.zeros((h, w))` followed by
`det_map[(h * boxes[:, 1]).astype(int), (w * boxes[:, 0]).astype(int)] = 1`,
viewed as a function of the (row, column) pair extended by zero outside the
assigned cells.  A box is a normalised `(x, y)` centre pair. -/
def detMap (h w : ℕ) (boxes : List (ℚ × ℚ)) (i j : ℤ) : ℝ :=
  if boxes.any (fun b =>
      pyTruncInt ((h : ℚ) * b.2) == i && pyTruncInt ((w : ℚ) * b.1) == j)
  then 1 else 0

/-- Unnormalised discrete Gaussian weight `exp(-d^2 / (2 sigma^2))`. -/
noncomputable def gaussWeight (σ : ℕ) (d : ℤ) : ℝ :=
  Real.exp (-(d : ℝ) ^ 2 / (2 * (σ : ℝ) ^ 2))

/-- The kernel radius `int(4.0 * sigma + 0.5)` used by scipy. -/
def gaussRadius (σ : ℕ) : ℤ := 4 * (σ : ℤ)

/-- Normalising constant of the truncated kernel. -/
noncomputable def gaussNorm (σ : ℕ) : ℝ :=
  Finset.sum (Finset.Icc (-gaussRadius σ) (gaussRadius σ)) (fun d => gaussWeight σ d)

/-- Normalised kernel weight. -/
noncomputable def gaussKernel (σ : ℕ) (d : ℤ) : ℝ := gaussWeight σ d / gaussNorm σ

/-- Separable 2-D Gaussian filtering of a zero-extended grid. -/
noncomputable def gaussianFilter2d (σ : ℕ) (f : ℤ → ℤ → ℝ) (i j : ℤ) : ℝ :=
  Finset.sum (Finset.Icc (-gaussRadius σ) (gaussRadius σ)) (fun a =>
    Finset.sum (Finset.Icc (-gaussRadius σ) (gaussRadius σ)) (fun b =>
      gaussKernel σ a * gaussKernel σ b * f (i - a) (j - b)))

/-- The density map computed by `generate_heatmap` before rendering:
`ndimage.gaussian_filter(det_map, sigma=(w // 200, w // 200), order=0)`. -/
noncomputable def heatDensity (h w : ℕ) (boxes : List (ℚ × ℚ)) (i j : ℤ) : ℝ :=
  gaussianFilter2d (heatmapSigma w) (detMap h w boxes) i j

/-! ### Helper lemmas: list masking -/

/-- Filtering a list through a boolean mask computed row-wise from a parallel
list is ordinary filtering of the zipped lists. -/
theorem zipMask_filterMap {α β : Type} (g : β → Bool) :
    ∀ (l1 : List α) (l2 : List β), l1.length = l2.length →
      ((l1.zip (l2.map g)).filterMap (fun bm => if bm.2 then some bm.1 else none))
        = ((l1.zip l2).filter (fun p => g p.2)).map Prod.fst := by
  intro l1
  induction l1 with
  | nil => intro l2 _; simp
  | cons a l1 ih =>
      intro l2 h
      cases l2 with
      | nil => simp at h
      | cons b l2 =>
          simp only [List.length_cons, Nat.add_right_cancel_iff] at h
          simp only [List.map_cons, List.zip_cons_cons, List.filterMap_cons,
            List.filter_cons, ih l2 h]
          cases hg : g b <;> simp [hg]

/-- A mask that is false on every row filters everything out (no length
hypothesis: `zip` truncates). -/
theorem zipMask_filterMap_nil {α β : Type} (g : β → Bool) :
    ∀ (l1 : List α) (l2 : List β), (∀ b ∈ l2, g b = false) →
      ((l1.zip (l2.map g)).filterMap (fun bm => if bm.2 then some bm.1 else none))
        = [] := by
  intro l1
  induction l1 with
  | nil => intro l2 _; simp
  | cons a l1 ih =>
      intro l2 h
      cases l2 with
      | nil => simp
      | cons b l2 =>
          have hb : g b = false := h b (List.mem_cons_self b l2)
          simp only [List.map_cons, List.zip_cons_cons, List.filterMap_cons, hb]
          exact ih l2 fun x hx => h x (List.mem_cons_of_mem b hx)

/-- A mask that is true on every row keeps everything. -/
theorem zipMask_filterMap_all {α β : Type} (g : β → Bool)
    (l1 : List α) (l2 : List β) (h : l1.length = l2.length)
    (hg : ∀ b ∈ l2, g b = true) :
    ((l1.zip (l2.map g)).filterMap (fun bm => if bm.2 then some bm.1 else none))
      = l1 := by
  rw [zipMask_filterMap g l1 l2 h]
  have hfull : (l1.zip l2).filter (fun p => g p.2) = l1.zip l2 := by
    apply List.filter_eq_self.mpr
    intro p hp
    exact hg p.2 (List.of_mem_zip hp).2
  rw [hfull, List.map_fst_zip]
  omega

/-! ### Helper lemmas: `pyMax` -/

theorem lt_foldl_max (c x : ℝ) (xs : List ℝ) :
    c < xs.foldl max x ↔ c < x ∨ ∃ y ∈ xs, c < y := by
  induction xs generalizing x with
  | nil => simp
  | cons y ys ih =>
      rw [List.foldl_cons, ih (max x y)]
      simp only [lt_max_iff, List.mem_cons, or_assoc]
      constructor
      · rintro (h | h | ⟨z, hz, hcz⟩)
        · exact Or.inl h
        · exact Or.inr ⟨y, Or.inl rfl, h⟩
        · exact Or.inr ⟨z, Or.inr hz, hcz⟩
      · rintro (h | ⟨z, (rfl | hz), hcz⟩)
        · exact Or.inl h
        · exact Or.inr (Or.inl hcz)
        · exact Or.inr (Or.inr ⟨z, hz, hcz⟩)

/-- The PyTorch row maximum exceeds a bound iff some row entry does. -/
theorem lt_pyMax_iff (c x : ℝ) (xs : List ℝ) :
    c < pyMax (x :: xs) ↔ ∃ y ∈ x :: xs, c < y := by
  rw [pyMax, lt_foldl_max]
  simp [List.mem_cons, or_and_right, exists_or, exists_eq_left]

/-! ### Helper lemmas: `indexFrom` and `matchKeywords` -/

theorem indexFrom_ge {ws : List String} {k : String} {s i : Nat}
    (h : indexFrom ws k s = some i) : s ≤ i := by
  unfold indexFrom at h
  cases hf : (ws.drop s).findIdx? (fun w => w == k) with
  | none => rw [hf] at h; exact absurd h (by simp)
  | some j => rw [hf] at h; simp only [Option.some.injEq] at h; omega

theorem indexFrom_none_of_not_mem {ws : List String} {k : String}
    (h : k ∉ ws) : indexFrom ws k 0 = none := by
  unfold indexFrom
  have hf : ws.findIdx? (fun w => w == k) = none := by
    rw [List.findIdx?_eq_none_iff]
    intro x hx
    exact beq_eq_false_iff_ne.mpr (fun he => h (he ▸ hx))
  simp [hf]

/-- If some keyword of the spec occurs nowhere among the input words, the
keyword-location loop fails (the `raise Exception` branch). -/
theorem matchKeywords_none_of_absent (ws : List String) (k : String) :
    ∀ (l : List String) (acc : List Nat),
      k ∈ l → k ∉ ws → matchKeywords ws l acc = none := by
  intro l
  induction l with
  | nil => intro acc hmem _; exact absurd hmem (List.not_mem_nil k)
  | cons k0 ks ih =>
      intro acc hmem hnot
      by_cases hk0 : k0 ∈ ws
      · rw [matchKeywords, if_pos hk0]
        have hk : k ∈ ks := by
          rcases List.mem_cons.mp hmem with h | h
          · exact absurd hk0 (h ▸ hnot)
          · exact h
        cases hidx : indexFrom ws k0 (acc.headD 0) with
        | none => rfl
        | some i => exact ih (i :: acc) hk hnot
      · rw [matchKeywords, if_neg hk0]

/-- The keyword-location loop fails only when some keyword lookup
(`list.index(k, start)`) fails. -/
theorem matchKeywords_none_reason (ws : List String) :
    ∀ (l : List String) (acc : List Nat),
      matchKeywords ws l acc = none →
        ∃ k ∈ l, ∃ s, indexFrom ws k s = none := by
  intro l
  induction l with
  | nil => intro acc h; exact absurd h (by simp [matchKeywords])
  | cons k0 ks ih =>
      intro acc h
      rw [matchKeywords] at h
      by_cases hk0 : k0 ∈ ws
      · rw [if_pos hk0] at h
        cases hidx : indexFrom ws k0 (acc.headD 0) with
        | none => exact ⟨k0, List.mem_cons_self k0 ks, acc.headD 0, hidx⟩
        | some i =>
            rw [hidx] at h
            obtain ⟨k, hk, s, hs⟩ := ih (i :: acc) h
            exact ⟨k, List.mem_cons_of_mem k0 hk, s, hs⟩
      · rw [if_neg hk0] at h
        exact ⟨k0, List.mem_cons_self k0 ks, 0, indexFrom_none_of_not_mem hk0⟩

/-- Each successful lookup starts at the previous match position (inclusive),
so the matched positions accumulate in non-decreasing order. -/
theorem matchKeywords_chain (ws : List String) :
    ∀ (l : List String) (acc winds : List Nat),
      matchKeywords ws l acc = some winds →
      List.Chain' (fun a b => b ≤ a) acc →
      List.Chain' (· ≤ ·) winds := by
  intro l
  induction l with
  | nil =>
      intro acc winds h hacc
      rw [matchKeywords, Option.some.injEq] at h
      subst h
      exact List.chain'_reverse.mpr hacc
  | cons k0 ks ih =>
      intro acc winds h hacc
      rw [matchKeywords] at h
      by_cases hk0 : k0 ∈ ws
      · rw [if_pos hk0] at h
        cases hidx : indexFrom ws k0 (acc.headD 0) with
        | none => rw [hidx] at h; exact absurd h (by simp)
        | some i =>
            rw [hidx] at h
            refine ih (i :: acc) winds h (List.chain'_cons'.mpr ⟨?_, hacc⟩)
            intro y hy
            have : acc.headD 0 ≤ i := indexFrom_ge hidx
            cases acc with
            | nil => exact absurd hy (by simp)
            | cons a rest =>
                simp only [List.head?_cons, Option.mem_def, Option.some.injEq] at hy
                subst hy
                simpa using this
      · rw [if_neg hk0] at h
        exact absurd h (by simp)

/-! ### Helper lemmas: whitespace-only keyword specs -/

theorem dropWhile_all {p : Char → Bool} :
    ∀ l : List Char, (∀ x ∈ l.dropWhile p, p x = true) → ∀ x ∈ l, p x = true := by
  intro l
  induction l with
  | nil => intro _ x hx; exact absurd hx (List.not_mem_nil x)
  | cons c cs ih =>
      intro h x hx
      by_cases hc : p c = true
      · rw [List.dropWhile_cons, if_pos hc] at h
        rcases List.mem_cons.mp hx with rfl | hx'
        · exact hc
        · exact ih h x hx'
      · rw [List.dropWhile_cons, if_neg hc] at h
        exact h x hx

theorem pyStripChars_nil {cs : List Char} (h : pyStripChars cs = []) :
    ∀ c ∈ cs, c.isWhitespace = true := by
  unfold pyStripChars at h
  rw [List.reverse_eq_nil_iff] at h
  have h2 := List.dropWhile_eq_nil_iff.mp h
  exact dropWhile_all cs fun x hx => h2 x (List.mem_reverse.mpr hx)

theorem splitOnP_no_sep {p : Char → Bool} :
    ∀ cs : List Char, (∀ c ∈ cs, p c = false) → splitOnP p cs = [cs] := by
  intro cs
  induction cs with
  | nil => intro _; rfl
  | cons c rest ih =>
      intro h
      have hc : p c = false := h c (List.mem_cons_self c rest)
      rw [splitOnP]
      simp only [hc, Bool.false_eq_true, if_false,
        ih fun x hx => h x (List.mem_cons_of_mem c hx)]

theorem asString_eq_empty {cs : List Char} (h : cs.asString = "") : cs = [] := by
  have := congrArg String.data h
  simpa [List.asString] using this

theorem string_length_zero {s : String} (h : s.length = 0) : s = "" := by
  cases s with
  | mk data =>
      simp only [String.length] at h
      rw [List.length_eq_zero] at h
      subst h
      rfl

theorem toList_asString (s : String) : s.toList.asString = s := by
  cases s; rfl

theorem parsedKeywords_whitespace {kws : String} (h : (pyStrip kws).length = 0) :
    parsedKeywords kws = [""] := by
  have hempty : pyStrip kws = "" := string_length_zero h
  have hnil : pyStripChars kws.toList = [] := asString_eq_empty hempty
  have hws : ∀ c ∈ kws.toList, c.isWhitespace = true := pyStripChars_nil hnil
  have hnc : ∀ c ∈ kws.toList, (c == ',') = false := by
    intro c hc
    have hw := hws c hc
    simp only [Char.isWhitespace, Bool.or_eq_true, decide_eq_true_eq] at hw
    rcases hw with ((rfl | rfl) | rfl) | rfl <;> rfl
  unfold parsedKeywords pySplitComma
  rw [splitOnP_no_sep kws.toList hnc]
  simp only [List.map_cons, List.map_nil, toList_asString]
  rw [hempty]

theorem empty_not_mem_pySplitWs (text : String) : "" ∉ pySplitWs text := by
  intro h
  unfold pySplitWs at h
  rw [List.mem_map] at h
  obtain ⟨cs, hcs, hs⟩ := h
  rw [List.mem_filter] at hcs
  have : cs = [] := asString_eq_empty hs
  subst this
  simp at hcs

/-- An `Except.ok` result of `get_ind_to_filter` with a whitespace-only keyword
spec forces the spec to be the empty string (a non-empty whitespace spec parses
to the keyword `""`, which never occurs among the split words, so the lookup
fails), and the result is then the full index range. -/
theorem get_ind_ok_of_strip_empty {text : String} {wids : List (Option Nat)}
    {kws : String} {inds : List Nat}
    (h : get_ind_to_filter text wids kws = Except.ok inds)
    (hstrip : (pyStrip kws).length = 0) :
    kws = "" ∧ inds = List.range wids.length := by
  by_cases hlen : kws.length ≤ 0
  · have hk : kws = "" := string_length_zero (Nat.le_zero.mp hlen)
    rw [get_ind_to_filter, if_pos hlen, Except.ok.injEq] at h
    exact ⟨hk, h.symm⟩
  · exfalso
    rw [get_ind_to_filter, if_neg hlen, parsedKeywords_whitespace hstrip,
      matchKeywords, if_neg (empty_not_mem_pySplitWs text)] at h
    exact absurd h (by simp)

/-! ### Claim C4 -/

theorem get_box_inputs_foldl (prompts : List Prompt) :
    ∀ acc : List ExBox,
      prompts.foldl
        (fun box_inputs p =>
          if p.flag1 = 2 ∧ p.flag2 = 3 then box_inputs ++ [(p.x1, p.y1, p.x2, p.y2)]
          else box_inputs) acc
        = acc ++ (prompts.filter (fun p => decide (p.flag1 = 2 ∧ p.flag2 = 3))).map
            (fun p => (p.x1, p.y1, p.x2, p.y2)) := by
  induction prompts with
  | nil => intro acc; simp
  | cons p ps ih =>
      intro acc
      simp only [List.foldl_cons, List.filter_cons]
      by_cases hp : p.flag1 = 2 ∧ p.flag2 = 3
      · rw [if_pos hp, ih]
        simp [hp]
      · rw [if_neg hp, ih]
        simp [hp]

/-- Claim C4: `get_box_inputs` returns exactly the prompts whose flags are
`(2.0, 3.0)`, mapped to their coordinate 4-tuples, preserving order and
values; the empty prompt list yields the empty output. -/
theorem get_box_inputs_spec :
    (∀ prompts : List Prompt,
       get_box_inputs prompts
         = (prompts.filter (fun p => decide (p.flag1 = 2 ∧ p.flag2 = 3))).map
             (fun p => (p.x1, p.y1, p.x2, p.y2)))
    ∧ get_box_inputs [] = [] := by
  constructor
  · intro prompts
    unfold get_box_inputs
    rw [get_box_inputs_foldl]
    simp
  · rfl

/-! ### Claim C3 -/

/-- Claim C3: with the empty keyword spec, `get_ind_to_filter` returns the
complete token index list `0 .. len(word_ids) - 1`, whatever the text. -/
theorem get_ind_to_filter_empty_keywords :
    ∀ (text : String) (word_ids : List (Option Nat)),
      get_ind_to_filter text word_ids "" = Except.ok (List.range word_ids.length) := by
  intro text word_ids
  rfl

/-! ### Claim C2 -/

/-- Claim C2: `get_ind_to_filter` errors whenever the (non-empty) keyword spec
contains a parsed keyword absent from the whitespace-split words of the text;
it never errors on the empty keyword spec; and every error comes from a failed
keyword lookup (`list.index` finding no occurrence at or after its start
offset). -/
theorem get_ind_to_filter_error_characterization :
    (∀ (text : String) (wids : List (Option Nat)) (kws : String),
       0 < kws.length →
       (∃ k ∈ parsedKeywords kws, k ∉ pySplitWs text) →
       ∃ e, get_ind_to_filter text wids kws = Except.error e)
    ∧ (∀ (text : String) (wids : List (Option Nat)) (e : String),
        get_ind_to_filter text wids "" ≠ Except.error e)
    ∧ (∀ (text : String) (wids : List (Option Nat)) (kws e : String),
        get_ind_to_filter text wids kws = Except.error e →
        0 < kws.length
        ∧ ∃ k ∈ parsedKeywords kws, ∃ s, indexFrom (pySplitWs text) k s = none) := by
  refine ⟨?_, ?_, ?_⟩
  · intro text wids kws hlen ⟨k, hk, hnot⟩
    rw [get_ind_to_filter, if_neg (by omega),
      matchKeywords_none_of_absent (pySplitWs text) k (parsedKeywords kws) [] hk hnot]
    exact ⟨_, rfl⟩
  · intro text wids e
    rw [get_ind_to_filter, if_pos (by rfl)]
    simp
  · intro text wids kws e h
    by_cases hlen : kws.length ≤ 0
    · rw [get_ind_to_filter, if_pos hlen] at h
      exact absurd h (by simp)
    · rw [get_ind_to_filter, if_neg hlen] at h
      refine ⟨by omega, ?_⟩
      cases hm : matchKeywords (pySplitWs text) (parsedKeywords kws) [] with
      | some wi => rw [hm] at h; exact absurd h (by simp)
      | none => exact matchKeywords_none_reason (pySplitWs text) (parsedKeywords kws) [] hm

/-- Witness for C2 at a concrete input: keyword `"b"`, text `"a"`. -/
theorem get_ind_to_filter_error_characterization_witness :
    0 < ("b" : String).length
    ∧ (∃ k ∈ parsedKeywords "b", k ∉ pySplitWs "a")
    ∧ ∃ e, get_ind_to_filter "a" [some 0] "b" = Except.error e :=
  ⟨by decide, by decide,
    get_ind_to_filter_error_characterization.1 "a" [some 0] "b" (by decide) (by decide)⟩

/-! ### Claim C6 -/

/-- Counterexample for C6: on text `"a red car"` with word_ids `[0,0,1,2]` and
keyword `"red"` (word index 1), the code returns token index list `[2]`
(the tokens whose word id is 1), not `[0, 1]` as claimed. -/
theorem get_ind_to_filter_red_car_counterexample :
    get_ind_to_filter "a red car" [some 0, some 0, some 1, some 2] "red"
      = Except.ok [2]
    ∧ get_ind_to_filter "a red car" [some 0, some 0, some 1, some 2] "red"
      ≠ Except.ok [0, 1] := by
  have h : get_ind_to_filter "a red car" [some 0, some 0, some 1, some 2] "red"
      = Except.ok [2] := rfl
  exact ⟨h, by rw [h]; simp⟩

/-- Claim C6 (amended): on the concrete input the filter returns `[2]`, and in
general a successful keyword match returns exactly the token positions whose
word id equals one of the matched word indices. -/
theorem get_ind_to_filter_matched_tokens :
    (get_ind_to_filter "a red car" [some 0, some 0, some 1, some 2] "red"
       = Except.ok [2])
    ∧ (∀ (text : String) (wids : List (Option Nat)) (kws : String)
         (winds : List Nat),
        0 < kws.length →
        matchKeywords (pySplitWs text) (parsedKeywords kws) [] = some winds →
        ∃ L, get_ind_to_filter text wids kws = Except.ok L
          ∧ ∀ ind : Nat,
              (ind ∈ L ↔ ind < wids.length
                ∧ ∃ w, wids.getD ind none = some w ∧ w ∈ winds)) := by
  constructor
  · rfl
  · intro text wids kws winds hlen hm
    rw [get_ind_to_filter, if_neg (by omega), hm]
    refine ⟨_, rfl, ?_⟩
    intro ind
    rw [List.mem_filter, List.mem_range]
    constructor
    · rintro ⟨hlt, hf⟩
      refine ⟨hlt, ?_⟩
      cases hg : wids.getD ind none with
      | none => rw [hg] at hf; exact absurd hf (by simp)
      | some wid =>
          rw [hg] at hf
          exact ⟨wid, rfl, of_decide_eq_true hf⟩
    · rintro ⟨hlt, w, hg, hw⟩
      exact ⟨hlt, by rw [hg]; exact decide_eq_true hw⟩

/-- Witness for the general part of C6: text `"a b"`, keyword `"b"`
(word index 1), word_ids `[some 1]`. -/
theorem get_ind_to_filter_matched_tokens_witness :
    0 < ("b" : String).length
    ∧ matchKeywords (pySplitWs "a b") (parsedKeywords "b") [] = some [1]
    ∧ ∃ L, get_ind_to_filter "a b" [some 1] "b" = Except.ok L
        ∧ ∀ ind : Nat,
            (ind ∈ L ↔ ind < 1
              ∧ ∃ w, ([some 1] : List (Option Nat)).getD ind none = some w
                  ∧ w ∈ [1]) :=
  ⟨by decide, by decide,
    get_ind_to_filter_matched_tokens.2 "a b" [some 1] "b" [1] (by decide) (by decide)⟩

/-! ### Claim C7 -/

/-- Counterexample for C7: with text `"a b"` and the duplicate keyword spec
`"a,a"`, the second lookup starts at the previous match position *inclusive*
and re-matches word position 0, so the matched positions `[0, 0]` are not
strictly increasing and the call succeeds instead of failing. -/
theorem matchKeywords_duplicate_counterexample :
    matchKeywords ["a", "b"] ["a", "a"] [] = some [0, 0]
    ∧ ¬ List.Chain' (fun a b => a < b) [0, 0]
    ∧ get_ind_to_filter "a b" [some 0, some 1] "a,a" = Except.ok [0] := by
  refine ⟨by decide, by simp [List.chain'_cons], rfl⟩

/-- Claim C7 (amended): each keyword after the first is searched from the
previous matched position inclusive, so the matched word positions are
non-decreasing; a duplicate keyword re-matches the same position rather than
failing, while a keyword whose occurrences all lie strictly before the
previous match does fail. -/
theorem matchKeywords_nondecreasing :
    (∀ (ws kws : List String) (winds : List Nat),
       matchKeywords ws kws [] = some winds → List.Chain' (· ≤ ·) winds)
    ∧ get_ind_to_filter "a b" [some 0, some 1] "a,a" = Except.ok [0]
    ∧ get_ind_to_filter "a b" [some 0, some 1] "b,a"
        = Except.error "Only specify keywords in the input text!" := by
  refine ⟨?_, rfl, rfl⟩
  intro ws kws winds h
  exact matchKeywords_chain ws kws [] winds h (by simp)

/-- Witness for the general part of C7. -/
theorem matchKeywords_nondecreasing_witness :
    matchKeywords ["a", "b"] ["a", "b"] [] = some [0, 1]
    ∧ List.Chain' (fun a b : Nat => a ≤ b) [0, 1] :=
  ⟨by decide, matchKeywords_nondecreasing.1 ["a", "b"] ["a", "b"] [0, 1] (by decide)⟩

/-! ### Claim C8 -/

theorem string_data_append (s t : String) : (s ++ t).data = s.data ++ t.data := by
  cases s; cases t; rfl

theorem string_ne_of_headD (s t : String)
    (h : s.data.headD ' ' ≠ t.data.headD ' ') : s ≠ t := fun he => h (he ▸ rfl)

theorem headD_data_append (a s : String) (ha : a.data ≠ []) :
    (a ++ s).data.headD ' ' = a.data.headD ' ' := by
  rw [string_data_append]
  cases had : a.data with
  | nil => exact absurd had ha
  | cons c cs => rfl

theorem detected_head (s : String) (h : s.data.headD ' ' = 'D') (t : String) :
    (s ++ t).data.headD ' ' = 'D' := by
  have hne : s.data ≠ [] := by
    intro hnil
    rw [hnil] at h
    exact absurd h (by decide)
  rw [headD_data_append s t hne, h]

theorem head_D_ne_nothing (s : String) (h : s.data.headD ' ' = 'D') :
    s ≠ "Nothing specified to detect." := by
  apply string_ne_of_headD
  rw [h]
  decide

/-- Claim C8: the label is `"Nothing specified to detect."` exactly when the
stripped text is empty and the exemplar count is 0; a count of 1 produces the
singular `"1 visual exemplar."` form and every count `≥ 2` the plural
`"N visual exemplars."` form. -/
theorem generate_output_label_spec :
    (∀ (text : String) (n : Nat),
       generate_output_label text n = "Nothing specified to detect."
         ↔ ((pyStrip text).length = 0 ∧ n = 0))
    ∧ (∀ text : String,
        generate_output_label text 1
          = "Detected instances predicted with text and 1 visual exemplar."
        ∨ generate_output_label text 1
          = "Detected instances predicted with 1 visual exemplar.")
    ∧ (∀ (text : String) (n : Nat), 2 ≤ n →
        generate_output_label text n
          = "Detected instances predicted with text and " ++ toString n
              ++ " visual exemplars."
        ∨ generate_output_label text n
          = "Detected instances predicted with " ++ toString n
              ++ " visual exemplars.") := by
  have hD0 : ("Detected instances predicted with" : String).data.headD ' ' = 'D' := rfl
  refine ⟨?_, ?_, ?_⟩
  · intro t n
    constructor
    · intro h
      by_cases h1 : 0 < (pyStrip t).length
      · exfalso
        by_cases hn1 : n = 1
        · subst hn1
          rw [generate_output_label] at h
          simp only [h1, if_true, if_pos rfl] at h
          exact head_D_ne_nothing _
            (detected_head _ (detected_head _ (detected_head _
              (detected_head _ hD0 " text") " and ") (toString 1)) " visual exemplar.") h
        · by_cases hn2 : 1 < n
          · rw [generate_output_label] at h
            simp only [h1, if_true, hn1, if_false, hn2] at h
            exact head_D_ne_nothing _
              (detected_head _ (detected_head _ (detected_head _
                (detected_head _ hD0 " text") " and ") (toString n))
                " visual exemplars.") h
          · rw [generate_output_label] at h
            simp only [h1, if_true, hn1, if_false, hn2] at h
            exact head_D_ne_nothing _ (detected_head _ (detected_head _ hD0 " text") ".") h
      · by_cases h0 : 0 < n
        · exfalso
          by_cases hn1 : n = 1
          · subst hn1
            rw [generate_output_label] at h
            simp only [h1, if_false, h0, if_true, if_pos rfl] at h
            exact head_D_ne_nothing _
              (detected_head _ (detected_head _ (detected_head _ hD0 " ")
                (toString 1)) " visual exemplar.") h
          · rw [generate_output_label] at h
            simp only [h1, if_false, h0, if_true, hn1] at h
            exact head_D_ne_nothing _
              (detected_head _ (detected_head _ (detected_head _ hD0 " ")
                (toString n)) " visual exemplars.") h
        · exact ⟨by omega, by omega⟩
    · rintro ⟨h1, rfl⟩
      rw [generate_output_label]
      simp [h1]
  · intro t
    by_cases h1 : 0 < (pyStrip t).length
    · left
      rw [generate_output_label]
      simp only [h1, if_true, if_pos rfl]
      rfl
    · right
      rw [generate_output_label]
      simp only [h1, if_false, if_pos rfl]
      rfl
  · intro t n hn
    have hn1 : ¬ n = 1 := by omega
    have hn2 : 1 < n := by omega
    have h0 : 0 < n := by omega
    by_cases h1 : 0 < (pyStrip t).length
    · left
      rw [generate_output_label]
      simp only [h1, if_true, hn1, if_false, hn2]
      congr 1
    · right
      rw [generate_output_label]
      simp only [h1, if_false, h0, if_true, hn1]
      congr 1

/-- Witness for the plural part of C8 at `n = 2`. -/
theorem generate_output_label_spec_witness :
    2 ≤ 2
    ∧ (generate_output_label "cat" 2
        = "Detected instances predicted with text and " ++ toString 2
            ++ " visual exemplars."
       ∨ generate_output_label "cat" 2
        = "Detected instances predicted with " ++ toString 2
            ++ " visual exemplars.") :=
  ⟨by decide, generate_output_label_spec.2.2 "cat" 2 (by decide)⟩

/-! ### Helper lemmas: the two instance masks of `get_boxes_from_prediction` -/

/-- The keyword-branch mask `countP (> thresh) sliced == len(inds)` tests that
every selected token clears the threshold. -/
theorem maskA_eq (inds : List Nat) (row : List ℝ) :
    decide ((inds.map (fun i => sigmoid (row.getD i 0))).countP
        (fun x => decide (CONF_THRESH < x)) = inds.length)
      = decide (∀ i ∈ inds, CONF_THRESH < sigmoid (row.getD i 0)) := by
  rw [decide_eq_decide, List.countP_map]
  rw [show inds.length = inds.length from rfl, List.countP_eq_length]
  simp [Function.comp]

theorem lt_pyMax_iff_ne_nil (c : ℝ) (l : List ℝ) (hl : l ≠ []) :
    c < pyMax l ↔ ∃ y ∈ l, c < y := by
  cases l with
  | nil => exact absurd rfl hl
  | cons x xs => exact lt_pyMax_iff c x xs

/-- The empty-keyword-branch mask `max sliced > thresh` tests that some allowed
token clears the threshold. -/
theorem maskB_eq (n : Nat) (hn : 0 < n) (row : List ℝ) :
    decide (CONF_THRESH < pyMax ((List.range n).map (fun i => sigmoid (row.getD i 0))))
      = decide (∃ i ∈ List.range n, CONF_THRESH < sigmoid (row.getD i 0)) := by
  rw [decide_eq_decide]
  rw [lt_pyMax_iff_ne_nil]
  · simp
  · simp only [ne_eq, List.map_eq_nil_iff, List.range_eq_nil]
    omega

theorem map_zip_filter {α β : Type} (f : α → β) (g : α → Bool) :
    ∀ l : List α,
      (((l.map f).zip l).filter (fun p => g p.2)).map Prod.fst = (l.filter g).map f := by
  intro l
  induction l with
  | nil => simp
  | cons a l ih =>
      simp only [List.map_cons, List.zip_cons_cons, List.filter_cons]
      cases hg : g a <;> simp [hg, ih]

theorem mapMask_filterMap {α β : Type} (f : α → β) (g : α → Bool) :
    ∀ l : List α,
      ((l.map f).zip (l.map g)).filterMap (fun lm => if lm.2 then some lm.1 else none)
        = (l.filter g).map f := by
  intro l
  induction l with
  | nil => simp
  | cons a l ih =>
      simp only [List.map_cons, List.zip_cons_cons, List.filterMap_cons, List.filter_cons]
      cases hg : g a <;> simp [hg, ih]

/-! ### Claim C1 -/

/-- `sigmoid (-2) = 1 / (1 + e^2) ≈ 0.119` is below the 0.23 threshold. -/
theorem sigmoid_neg_two_lt : sigmoid (-2) < CONF_THRESH := by
  unfold sigmoid CONF_THRESH
  have h2 : Real.exp 2 = Real.exp 1 * Real.exp 1 := by
    rw [← Real.exp_add]; norm_num
  have h1 : (2.7182818283 : ℝ) < Real.exp 1 := Real.exp_one_gt_d9
  have hgt : (77 / 23 : ℝ) < Real.exp 2 := by nlinarith
  rw [show (-(-2 : ℝ)) = 2 by norm_num]
  have hpos : (0 : ℝ) < 1 + Real.exp 2 := by positivity
  rw [div_lt_div_iff₀ hpos (by norm_num : (0 : ℝ) < 100)]
  nlinarith

/-- Counterexample for C1's final sentence: here every post-sigmoid confidence
is below 0.23, yet with keyword spec `"a"` on text `"a"` the selected token
index set is empty (the only token maps to word 1, not to the matched word 0),
the per-instance AND over zero selected tokens holds vacuously, and the box is
kept — the returned box array is *not* empty. -/
theorem get_boxes_below_thresh_counterexample :
    (∀ row ∈ (ModelOutput.mk [[-2]] [(0, 0, 0, 0)] [some 1]).pred_logits,
       ∀ x ∈ row, sigmoid x < CONF_THRESH)
    ∧ get_boxes_from_prediction (ModelOutput.mk [[-2]] [(0, 0, 0, 0)] [some 1]) "a" "a"
        = Except.ok ([(0, 0, 0, 0)], [[]])
    ∧ ([((0 : ℚ), (0 : ℚ), (0 : ℚ), (0 : ℚ))] : List Box) ≠ [] := by
  refine ⟨?_, rfl, by simp⟩
  intro row hrow x hx
  simp only [List.mem_singleton] at hrow
  subst hrow
  simp only [List.mem_singleton] at hx
  subst hx
  exact sigmoid_neg_two_lt

/-- Claim C1 (amended): whenever `get_ind_to_filter` succeeds,
(1) with a non-whitespace keyword spec an instance is kept iff its post-sigmoid
confidence exceeds 0.23 at *every* selected token index (AND semantics);
(2) with the empty spec an instance is kept iff its maximum post-sigmoid
confidence over the allowed indices exceeds 0.23, i.e. iff *some* allowed index
clears the threshold;
(3) when every selected post-sigmoid confidence is below 0.23 *and the selected
index set is non-empty*, the result is empty.  (Without the non-emptiness
proviso (3) is false: see the counterexample, where the vacuous AND keeps
every instance.) -/
theorem get_boxes_threshold_semantics :
    (∀ (mo : ModelOutput) (text kws : String) (inds : List Nat),
       get_ind_to_filter text mo.word_ids kws = Except.ok inds →
       mo.pred_boxes.length = mo.pred_logits.length →
       0 < (pyStrip kws).length →
       get_boxes_from_prediction mo text kws
         = Except.ok
             (((mo.pred_boxes.zip mo.pred_logits).filter
                 (fun p => decide (∀ i ∈ inds, CONF_THRESH < sigmoid (p.2.getD i 0)))).map
               Prod.fst,
              (mo.pred_logits.filter
                 (fun row => decide (∀ i ∈ inds, CONF_THRESH < sigmoid (row.getD i 0)))).map
               (fun row => inds.map (fun i => sigmoid (row.getD i 0)))))
    ∧ (∀ (mo : ModelOutput) (text kws : String) (inds : List Nat),
        get_ind_to_filter text mo.word_ids kws = Except.ok inds →
        (pyStrip kws).length = 0 →
        mo.word_ids ≠ [] →
        mo.pred_boxes.length = mo.pred_logits.length →
        get_boxes_from_prediction mo text kws
          = Except.ok
              (((mo.pred_boxes.zip mo.pred_logits).filter
                  (fun p => decide (∃ i ∈ inds, CONF_THRESH < sigmoid (p.2.getD i 0)))).map
                Prod.fst,
               (mo.pred_logits.filter
                  (fun row => decide (∃ i ∈ inds, CONF_THRESH < sigmoid (row.getD i 0)))).map
                (fun row => inds.map (fun i => sigmoid (row.getD i 0)))))
    ∧ (∀ (mo : ModelOutput) (text kws : String) (inds : List Nat),
        get_ind_to_filter text mo.word_ids kws = Except.ok inds →
        inds ≠ [] →
        (∀ row ∈ mo.pred_logits, ∀ i ∈ inds, sigmoid (row.getD i 0) < CONF_THRESH) →
        get_boxes_from_prediction mo text kws = Except.ok ([], [])) := by
  refine ⟨?_, ?_, ?_⟩
  · intro mo text kws inds h_ind h_len h_strip
    rw [get_boxes_from_prediction, h_ind]
    simp only [if_pos h_strip]
    have hmask :
        (mo.pred_logits.map (fun row => inds.map (fun i => sigmoid (row.getD i 0)))).map
            (fun row => decide (row.countP (fun x => decide (CONF_THRESH < x)) = inds.length))
          = mo.pred_logits.map
              (fun row => decide (∀ i ∈ inds, CONF_THRESH < sigmoid (row.getD i 0))) := by
      rw [List.map_map]
      apply List.map_congr_left
      intro row _
      exact maskA_eq inds row
    rw [hmask, zipMask_filterMap _ mo.pred_boxes mo.pred_logits h_len, mapMask_filterMap]
  · intro mo text kws inds h_ind h_strip h_ne h_len
    obtain ⟨hk, hinds⟩ := get_ind_ok_of_strip_empty h_ind h_strip
    subst hk
    subst hinds
    rw [get_boxes_from_prediction, h_ind]
    simp only [if_neg (by decide : ¬ 0 < (pyStrip "").length)]
    have hne : ¬ (List.range mo.word_ids.length).isEmpty = true := by
      simp only [List.isEmpty_iff, List.range_eq_nil, List.length_eq_zero]
      exact h_ne
    simp only [if_neg hne]
    have hmask :
        (mo.pred_logits.map (fun row =>
            (List.range mo.word_ids.length).map (fun i => sigmoid (row.getD i 0)))).map
            (fun row => decide (CONF_THRESH < pyMax row))
          = mo.pred_logits.map
              (fun row => decide (∃ i ∈ List.range mo.word_ids.length,
                  CONF_THRESH < sigmoid (row.getD i 0))) := by
      rw [List.map_map]
      apply List.map_congr_left
      intro row _
      exact maskB_eq mo.word_ids.length (by simpa [List.length_pos] using h_ne) row
    rw [hmask, zipMask_filterMap _ mo.pred_boxes mo.pred_logits h_len, mapMask_filterMap]
  · intro mo text kws inds h_ind h_ne h_below
    by_cases h_strip : 0 < (pyStrip kws).length
    · rw [get_boxes_from_prediction, h_ind]
      simp only [if_pos h_strip, List.map_map]
      have hfalse : ∀ row ∈ mo.pred_logits,
          ((fun row => decide (List.countP (fun x => decide (CONF_THRESH < x)) row
              = inds.length)) ∘
            (fun row => inds.map (fun i => sigmoid (row.getD i 0)))) row = false := by
        intro row hrow
        simp only [Function.comp]
        rw [maskA_eq]
        apply decide_eq_false
        intro hall
        obtain ⟨i0, hi0⟩ : ∃ i, i ∈ inds := by
          cases inds with
          | nil => exact absurd rfl h_ne
          | cons a l => exact ⟨a, List.mem_cons_self a l⟩
        exact absurd (hall i0 hi0) (not_lt.mpr (le_of_lt (h_below row hrow i0 hi0)))
      rw [zipMask_filterMap_nil _ mo.pred_boxes mo.pred_logits hfalse,
        zipMask_filterMap_nil _
          (mo.pred_logits.map (fun row => inds.map (fun i => sigmoid (row.getD i 0))))
          mo.pred_logits hfalse]
    · have hstrip0 : (pyStrip kws).length = 0 := by omega
      obtain ⟨hk, hinds⟩ := get_ind_ok_of_strip_empty h_ind hstrip0
      subst hk
      rw [get_boxes_from_prediction, h_ind]
      simp only [if_neg h_strip]
      have hempty : ¬ inds.isEmpty = true := by
        cases inds with
        | nil => exact absurd rfl h_ne
        | cons a l => simp
      simp only [if_neg hempty, List.map_map]
      have hfalse : ∀ row ∈ mo.pred_logits,
          ((fun row => decide (CONF_THRESH < pyMax row)) ∘
            (fun row => inds.map (fun i => sigmoid (row.getD i 0)))) row = false := by
        intro row hrow
        simp only [Function.comp]
        apply decide_eq_false
        rw [lt_pyMax_iff_ne_nil _ _ (by simpa using h_ne)]
        rintro ⟨y, hy, hcy⟩
        rw [List.mem_map] at hy
        obtain ⟨i, hi, rfl⟩ := hy
        exact absurd hcy (not_lt.mpr (le_of_lt (h_below row hrow i hi)))
      rw [zipMask_filterMap_nil _ mo.pred_boxes mo.pred_logits hfalse,
        zipMask_filterMap_nil _
          (mo.pred_logits.map (fun row => inds.map (fun i => sigmoid (row.getD i 0))))
          mo.pred_logits hfalse]

/-- Witness for C1 at a concrete input (part 1: keyword spec `"a"`). -/
theorem get_boxes_threshold_semantics_witness :
    get_ind_to_filter "a" [some 0] "a" = Except.ok [0]
    ∧ 0 < (pyStrip "a").length
    ∧ ∃ bs ls,
        get_boxes_from_prediction (ModelOutput.mk [[0]] [(1, 2, 3, 4)] [some 0]) "a" "a"
          = Except.ok (bs, ls) :=
  ⟨rfl, by decide, by
    have h := get_boxes_threshold_semantics.1
      (ModelOutput.mk [[0]] [(1, 2, 3, 4)] [some 0]) "a" "a" [0] rfl rfl (by decide)
    exact ⟨_, _, h⟩⟩

/-! ### Claim C10 -/

/-- Claim C10: with a non-whitespace keyword spec whose selected token index
set is empty, the per-instance AND over zero selected tokens holds vacuously,
so every instance is kept and the confidence rows are empty. -/
theorem get_boxes_empty_selection_keeps_all
    (mo : ModelOutput) (text kws : String)
    (h_strip : 0 < (pyStrip kws).length)
    (h_ind : get_ind_to_filter text mo.word_ids kws = Except.ok [])
    (h_len : mo.pred_boxes.length = mo.pred_logits.length) :
    get_boxes_from_prediction mo text kws
      = Except.ok (mo.pred_boxes, mo.pred_logits.map (fun _ => ([] : List ℝ))) := by
  rw [get_boxes_from_prediction, h_ind]
  simp only [if_pos h_strip, List.map_nil, List.length_nil]
  have hmask :
      (mo.pred_logits.map (fun _ => ([] : List ℝ))).map
          (fun row => decide (List.countP (fun x => decide (CONF_THRESH < x)) row = 0))
        = mo.pred_logits.map (fun _ => true) := by
    rw [List.map_map]
    apply List.map_congr_left
    intro row _
    simp
  rw [hmask,
    zipMask_filterMap_all _ mo.pred_boxes mo.pred_logits h_len (by simp),
    zipMask_filterMap_all _ (mo.pred_logits.map (fun _ => ([] : List ℝ)))
      mo.pred_logits (by simp) (by simp)]

/-- Witness for C10: keyword `"a"` matches word 0 of text `"a"`, but the only
token maps to word 1, so no token is selected and the box is kept. -/
theorem get_boxes_empty_selection_keeps_all_witness :
    0 < (pyStrip "a").length
    ∧ get_ind_to_filter "a" [some 1] "a" = Except.ok []
    ∧ get_boxes_from_prediction (ModelOutput.mk [[0]] [(1, 2, 3, 4)] [some 1]) "a" "a"
        = Except.ok ([(1, 2, 3, 4)], [[]]) :=
  ⟨by decide, rfl,
    get_boxes_empty_selection_keeps_all
      (ModelOutput.mk [[0]] [(1, 2, 3, 4)] [some 1]) "a" "a" (by decide) rfl rfl⟩

/-! ### Claim C5 -/

/-- Claim C5: `predict` filters with a hardcoded empty keyword spec: its result
is exactly `get_boxes_from_prediction` on the model output with
`keywords = ""`, under which the Token Filter selects every token index
(no keyword filtering happens).  `predict` itself has no keywords parameter. -/
theorem predict_uses_empty_keywords :
    ∀ {Img : Type} (model : Img → Img → List ExBox → String → ModelOutput)
      (transform : Img → Option (List ExBox) → Img × List ExBox)
      (image : Img) (text : String) (prompts : Option (PromptsDict Img)),
      predict model transform image text prompts
        = get_boxes_from_prediction
            (model (preprocess transform image prompts).1
              (preprocess transform image prompts).2.1
              (preprocess transform image prompts).2.2 (text ++ " ."))
            text ""
      ∧ get_ind_to_filter text
            (model (preprocess transform image prompts).1
              (preprocess transform image prompts).2.1
              (preprocess transform image prompts).2.2 (text ++ " .")).word_ids ""
          = Except.ok (List.range
              (model (preprocess transform image prompts).1
                (preprocess transform image prompts).2.1
                (preprocess transform image prompts).2.2 (text ++ " .")).word_ids.length) := by
  intro Img model transform image text prompts
  exact ⟨rfl, rfl⟩

/-! ### Claim C9 -/

/-- The impulse grid for a 200×200 image with a single box centred at
(0.5, 0.5): exactly the cell (row, col) = (100, 100) is set. -/
theorem detMap_at (i j : ℤ) :
    detMap 200 200 [(1/2, 1/2)] i j = if i = 100 ∧ j = 100 then 1 else 0 := by
  by_cases hi : i = 100
  · by_cases hj : j = 100
    · subst hi; subst hj
      norm_num [detMap, pyTruncInt]
    · subst hi
      have hj2 : ¬ (100 : ℤ) = j := fun h => hj h.symm
      norm_num [detMap, pyTruncInt, hj, hj2]
  · have hi2 : ¬ (100 : ℤ) = i := fun h => hi h.symm
    norm_num [detMap, pyTruncInt, hi, hi2]

theorem sum_delta_mul (s : Finset ℤ) (F : ℤ → ℝ) (A B : ℤ) :
    (Finset.sum s fun a => Finset.sum s fun b =>
        F a * F b * (if a = A ∧ b = B then 1 else 0))
      = (if A ∈ s then F A else 0) * (if B ∈ s then F B else 0) := by
  have hsummand : ∀ a b : ℤ, F a * F b * (if a = A ∧ b = B then 1 else 0)
      = (if a = A then F a else 0) * (if b = B then F b else 0) := by
    intro a b
    by_cases ha : a = A <;> by_cases hb : b = B <;> simp [ha, hb]
  calc (Finset.sum s fun a => Finset.sum s fun b =>
          F a * F b * (if a = A ∧ b = B then 1 else 0))
      = Finset.sum s fun a => Finset.sum s fun b =>
          (if a = A then F a else 0) * (if b = B then F b else 0) := by
        refine Finset.sum_congr rfl fun a _ => Finset.sum_congr rfl fun b _ => hsummand a b
    _ = (Finset.sum s fun a => if a = A then F a else 0)
          * (Finset.sum s fun b => if b = B then F b else 0) := by
        rw [Finset.sum_mul_sum]
    _ = (if A ∈ s then F A else 0) * (if B ∈ s then F B else 0) := by
        rw [Finset.sum_ite_eq' s A F, Finset.sum_ite_eq' s B F]

/-- Closed form of the filtered density map for the single centred impulse:
the separable kernel evaluated at the offset from (100, 100). -/
theorem heatDensity_closed (i j : ℤ) :
    heatDensity 200 200 [(1/2, 1/2)] i j
      = (if i - 100 ∈ Finset.Icc (-4 : ℤ) 4 then gaussKernel 1 (i - 100) else 0)
        * (if j - 100 ∈ Finset.Icc (-4 : ℤ) 4 then gaussKernel 1 (j - 100) else 0) := by
  have hs : heatmapSigma 200 = 1 := rfl
  unfold heatDensity gaussianFilter2d
  rw [hs]
  have hr : gaussRadius 1 = 4 := rfl
  rw [hr]
  have hsummand : ∀ a b : ℤ,
      gaussKernel 1 a * gaussKernel 1 b * detMap 200 200 [(1/2, 1/2)] (i - a) (j - b)
        = gaussKernel 1 a * gaussKernel 1 b
            * (if a = i - 100 ∧ b = j - 100 then 1 else 0) := by
    intro a b
    rw [detMap_at]
    congr 1
    exact if_congr (by omega) rfl rfl
  rw [Finset.sum_congr rfl fun a _ => Finset.sum_congr rfl fun b _ => hsummand a b]
  exact sum_delta_mul (Finset.Icc (-4 : ℤ) 4) (gaussKernel 1) (i - 100) (j - 100)

theorem gaussNorm_pos : 0 < gaussNorm 1 := by
  unfold gaussNorm
  apply Finset.sum_pos
  · intro d _
    unfold gaussWeight
    exact Real.exp_pos _
  · exact ⟨0, by simp [gaussRadius]⟩

theorem gaussKernel_pos (d : ℤ) : 0 < gaussKernel 1 d :=
  div_pos (by unfold gaussWeight; exact Real.exp_pos _) gaussNorm_pos

theorem gaussKernel_lt (d : ℤ) (hd : d ≠ 0) : gaussKernel 1 d < gaussKernel 1 0 := by
  unfold gaussKernel
  apply div_lt_div_of_pos_right ?_ gaussNorm_pos
  unfold gaussWeight
  apply Real.exp_lt_exp.mpr
  have hd2 : (0 : ℝ) < (d : ℝ) ^ 2 := by
    have : (d : ℝ) ≠ 0 := Int.cast_ne_zero.mpr hd
    positivity
  push_cast
  nlinarith

theorem heat_peak (i j : ℤ) (_h0i : 0 ≤ i) (_hi : i < 200) (_h0j : 0 ≤ j)
    (_hj : j < 200) (hne : ¬ (i = 100 ∧ j = 100)) :
    heatDensity 200 200 [(1/2, 1/2)] i j < heatDensity 200 200 [(1/2, 1/2)] 100 100 := by
  rw [heatDensity_closed, heatDensity_closed]
  have hK0 : 0 < gaussKernel 1 0 := gaussKernel_pos 0
  have hcenter :
      (if (100 : ℤ) - 100 ∈ Finset.Icc (-4 : ℤ) 4 then gaussKernel 1 (100 - 100) else 0)
        = gaussKernel 1 0 := by
    norm_num
  rw [hcenter]
  have hg_nonneg : ∀ d : ℤ,
      0 ≤ (if d ∈ Finset.Icc (-4 : ℤ) 4 then gaussKernel 1 d else 0) := by
    intro d
    by_cases hd : d ∈ Finset.Icc (-4 : ℤ) 4
    · rw [if_pos hd]; exact le_of_lt (gaussKernel_pos d)
    · rw [if_neg hd]
  have hg_le : ∀ d : ℤ,
      (if d ∈ Finset.Icc (-4 : ℤ) 4 then gaussKernel 1 d else 0) ≤ gaussKernel 1 0 := by
    intro d
    by_cases hd : d ∈ Finset.Icc (-4 : ℤ) 4
    · rw [if_pos hd]
      by_cases hd0 : d = 0
      · subst hd0; exact le_refl _
      · exact le_of_lt (gaussKernel_lt d hd0)
    · rw [if_neg hd]; exact le_of_lt hK0
  have hg_lt : ∀ d : ℤ, d ≠ 0 →
      (if d ∈ Finset.Icc (-4 : ℤ) 4 then gaussKernel 1 d else 0) < gaussKernel 1 0 := by
    intro d hd0
    by_cases hd : d ∈ Finset.Icc (-4 : ℤ) 4
    · rw [if_pos hd]; exact gaussKernel_lt d hd0
    · rw [if_neg hd]; exact hK0
  have hor : i - 100 ≠ 0 ∨ j - 100 ≠ 0 := by omega
  rcases hor with hA | hB
  · calc (if i - 100 ∈ Finset.Icc (-4 : ℤ) 4 then gaussKernel 1 (i - 100) else 0)
          * (if j - 100 ∈ Finset.Icc (-4 : ℤ) 4 then gaussKernel 1 (j - 100) else 0)
        ≤ (if i - 100 ∈ Finset.Icc (-4 : ℤ) 4 then gaussKernel 1 (i - 100) else 0)
          * gaussKernel 1 0 :=
          mul_le_mul_of_nonneg_left (hg_le _) (hg_nonneg _)
      _ < gaussKernel 1 0 * gaussKernel 1 0 :=
          mul_lt_mul_of_pos_right (hg_lt _ hA) hK0
  · calc (if i - 100 ∈ Finset.Icc (-4 : ℤ) 4 then gaussKernel 1 (i - 100) else 0)
          * (if j - 100 ∈ Finset.Icc (-4 : ℤ) 4 then gaussKernel 1 (j - 100) else 0)
        ≤ gaussKernel 1 0
          * (if j - 100 ∈ Finset.Icc (-4 : ℤ) 4 then gaussKernel 1 (j - 100) else 0) :=
          mul_le_mul_of_nonneg_right (hg_le _) (hg_nonneg _)
      _ < gaussKernel 1 0 * gaussKernel 1 0 :=
          mul_lt_mul_of_pos_left (hg_lt _ hB) hK0

/-- Counterexample for C9's sigma: the code passes `sigma = w // 200` (floor
division), which at width 300 gives 1, not `300 / 200 = 1.5` as the claim's
`w / 200` states. -/
theorem heatmap_sigma_counterexample :
    heatmapSigma 300 = 1 ∧ ((heatmapSigma 300 : ℚ) ≠ (300 : ℚ) / 200) := by
  constructor
  · rfl
  · norm_num [heatmapSigma]

/-- Claim C9 (amended): the Gaussian sigma is `w // 200` (floor division,
equal to 1 at width 200); for a 200×200 image with one box at (0.5, 0.5) the
impulse grid is 1 exactly at (row, col) = (100, 100) and the filtered density
map attains its strict maximum at pixel (100, 100). -/
theorem generate_heatmap_peak :
    heatmapSigma 200 = 1
    ∧ (∀ i j : ℤ,
        detMap 200 200 [(1/2, 1/2)] i j = if i = 100 ∧ j = 100 then 1 else 0)
    ∧ (∀ i j : ℤ, 0 ≤ i → i < 200 → 0 ≤ j → j < 200 → ¬(i = 100 ∧ j = 100) →
        heatDensity 200 200 [(1/2, 1/2)] i j
          < heatDensity 200 200 [(1/2, 1/2)] 100 100) :=
  ⟨rfl, detMap_at, heat_peak⟩

/-- Witness for C9's peak statement at the neighbouring pixel (99, 100). -/
theorem generate_heatmap_peak_witness :
    ((0 : ℤ) ≤ 99 ∧ (99 : ℤ) < 200 ∧ (0 : ℤ) ≤ 100 ∧ (100 : ℤ) < 200
      ∧ ¬((99 : ℤ) = 100 ∧ (100 : ℤ) = 100))
    ∧ heatDensity 200 200 [(1/2, 1/2)] 99 100 < heatDensity 200 200 [(1/2, 1/2)] 100 100 :=
  ⟨⟨by decide, by decide, by decide, by decide, by decide⟩,
    generate_heatmap_peak.2.2 99 100 (by decide) (by decide) (by decide) (by decide)
      (by decide)⟩
